import Mathlib

/-!
Shallow embedding of the xyppy-speech GUI front-end (gui/pipe.py,
gui/engine_thread.py, gui/app.py, gui/widgets/transcript.py,
gui/widgets/inputbox.py) together with theorems settling the frozen
claims about its specification.

Modelling conventions:
* `Pipe` (gui/pipe.py) is `queue.Queue` specialised to text fragments: a
  bounded FIFO, modelled as its `maxsize` bound plus the list of queued
  fragments in arrival order (head = oldest).  A blocking operation that
  would suspend the calling thread (`put` on a full queue, `get` on an
  empty queue) is modelled as returning `none`.
* Tk text widgets are modelled by their textual content plus their
  `state` option; Tk ignores programmatic `insert` on a `disabled`
  widget, which is why `Transcript.append` has to flip the state.
* Python's `sys` module is a process-global singleton: attribute
  assignment (`sys.stdin = ...`) is visible to every thread.  The model
  makes the sharing explicit so claims about thread-scoping can be
  settled.
-/

set_option autoImplicit false

namespace XyppySpeech

/-! ## gui/pipe.py -/

/-- gui/pipe.py, class `Pipe(queue.Queue, io.TextIOBase)`: a bounded
FIFO of text fragments.  `items` lists queued fragments oldest first;
`maxsize` is the bound passed to `queue.Queue.__init__`. -/
structure Pipe where
  maxsize : Nat
  items : List String
  deriving DecidableEq, Repr

/-- `Pipe()` with the default `maxsize=2048` and an empty queue. -/
def Pipe.mk0 : Pipe := ⟨2048, []⟩

/-- `Pipe.write(s)` is `self.put(s)`: enqueue at the tail; a full queue
makes `put` block, modelled as `none`. -/
def Pipe.write (p : Pipe) (s : String) : Option Pipe :=
  if p.items.length < p.maxsize then some { p with items := p.items ++ [s] } else none

/-- `Pipe.readline()` is `self.get()`: dequeue the oldest fragment; an
empty queue makes `get` block, modelled as `none`. -/
def Pipe.readline (p : Pipe) : Option (String × Pipe) :=
  match p with
  | ⟨_, []⟩ => none
  | ⟨m, x :: xs⟩ => some (x, ⟨m, xs⟩)

/-- `queue.Queue.get_nowait()` as used by the poll loop: dequeue the
oldest fragment, or raise `queue.Empty` (modelled as `none`) when the
queue is empty.  Functionally identical to a non-suspending `get`. -/
def Pipe.get_nowait (p : Pipe) : Option (String × Pipe) :=
  Pipe.readline p

/-- `Pipe.flush()` is a no-op. -/
def Pipe.flush (p : Pipe) : Pipe := p

/-- Successive `write` calls for the fragments of `fs`, in order; `none`
if some `put` would block on a full queue. -/
def Pipe.writeAll (p : Pipe) : List String → Option Pipe
  | [] => some p
  | f :: fs => (Pipe.write p f).bind fun q => Pipe.writeAll q fs

/-- `n` successive blocking `readline` calls, collecting the fragments
in the order the calls return them; `none` if some call would block
forever (queue empty with no producer, in this single-consumer model). -/
def Pipe.readlines (p : Pipe) : Nat → Option (List String × Pipe)
  | 0 => some ([], p)
  | n + 1 =>
    (Pipe.readline p).bind fun r =>
      (Pipe.readlines r.2 n).map fun rs => (r.1 :: rs.1, rs.2)

/-! ## gui/widgets/transcript.py -/

/-- The Tk `state` option of a text widget. -/
inductive TkState where
  | normal
  | disabled
  deriving DecidableEq, Repr

/-- A Tk text widget: its textual content and its `state` option.  The
`Transcript` widget is constructed with `state="disabled"`. -/
structure TkText where
  content : String
  state : TkState
  deriving DecidableEq, Repr

/-- Tk `insert("end", s)`: appends at the tail when the widget is
`normal`; Tk silently ignores programmatic inserts on a `disabled`
widget. -/
def TkText.insertEnd (w : TkText) (s : String) : TkText :=
  match w.state with
  | .normal => { w with content := w.content ++ s }
  | .disabled => w

/-- Tk `configure(state=st)`. -/
def TkText.configureState (w : TkText) (st : TkState) : TkText :=
  { w with state := st }

/-- `Transcript.append(text)` (gui/widgets/transcript.py): enable the
widget, insert at the end, scroll (`see("end")`, no content effect),
disable again. -/
def Transcript.append (w : TkText) (text : String) : TkText :=
  (((w.configureState .normal).insertEnd text).configureState .disabled)

/-! ## gui/app.py — the poll loop -/

/-- The body of `GameApp._poll_engine`'s `try` block: repeat
`chunk = self.engine.from_engine.get_nowait(); self.transcript.append(chunk)`
until `get_nowait` raises `queue.Empty` (the queue is empty), which the
`except` clause swallows.  Returns the chunks in the order they were
obtained, the drained pipe, and the updated transcript widget. -/
def GameApp.pollLoop : Pipe → TkText → List String × Pipe × TkText
  | ⟨m, []⟩, tr => ([], ⟨m, []⟩, tr)
  | ⟨m, c :: rest⟩, tr =>
    let r := GameApp.pollLoop ⟨m, rest⟩ (Transcript.append tr c)
    (c :: r.1, r.2)

/-- Result of one `GameApp._poll_engine` tick. -/
structure PollResult where
  chunks : List String
  pipe : Pipe
  transcript : TkText
  rescheduled : Bool
  deriving DecidableEq, Repr

/-- `GameApp._poll_engine` (gui/app.py): drain the outbound relay with
the `get_nowait` loop, appending every chunk to the transcript, then
unconditionally reschedule itself via `self.after(POLL_MS, ...)`. -/
def GameApp.pollEngine (p : Pipe) (tr : TkText) : PollResult :=
  let r := GameApp.pollLoop p tr
  ⟨r.1, r.2.1, r.2.2, true⟩

/-! ## Basic lemmas about the pipe and the poll loop -/

theorem Pipe.writeAll_eq (fs : List String) (p p' : Pipe)
    (h : Pipe.writeAll p fs = some p') :
    p'.maxsize = p.maxsize ∧ p'.items = p.items ++ fs := by
  induction fs generalizing p with
  | nil =>
    simp only [Pipe.writeAll] at h
    cases h
    simp
  | cons f fs ih =>
    rw [Pipe.writeAll] at h
    cases hw : Pipe.write p f with
    | none => rw [hw] at h; cases h
    | some q =>
      rw [hw] at h
      simp only [Option.some_bind] at h
      obtain ⟨h1, h2⟩ := ih q h
      unfold Pipe.write at hw
      split at hw
      · cases hw
        refine ⟨by simpa using h1, ?_⟩
        simpa using h2
      · cases hw

theorem GameApp.pollLoop_eq (m : Nat) (items : List String) (tr : TkText) :
    GameApp.pollLoop ⟨m, items⟩ tr
      = (items, ⟨m, []⟩, items.foldl Transcript.append tr) := by
  induction items generalizing tr with
  | nil => simp [GameApp.pollLoop]
  | cons c rest ih => simp [GameApp.pollLoop, ih]

theorem Pipe.readlines_all (m : Nat) (fs : List String) :
    Pipe.readlines ⟨m, fs⟩ fs.length = some (fs, ⟨m, []⟩) := by
  induction fs with
  | nil => simp [Pipe.readlines]
  | cons f fs ih => simp [Pipe.readlines, Pipe.readline, ih]

/-! ## gui/widgets/inputbox.py -/

/-- Python `str.isspace`-class characters relevant to `str.strip()`:
the ASCII whitespace characters. -/
def pyIsSpace (c : Char) : Bool :=
  c = ' ' ∨ c = '\t' ∨ c = '\n' ∨ c = '\x0d' ∨ c = '\x0b' ∨ c = '\x0c'

/-- Python `str.strip()`: drop leading and trailing whitespace. -/
def pyStrip (s : String) : String :=
  String.mk (((s.data.dropWhile pyIsSpace).reverse.dropWhile pyIsSpace).reverse)

/-- gui/widgets/inputbox.py, class `InputBox(tk.Text)`: the widget's
full text contents (`get("1.0", "end-1c")`), the command history, and
the history cursor.  `history_idx` is kept in `Nat`: the code only ever
assigns it `0`, `len(history)`, `max(0, idx - 1)` or
`min(len(history), idx + 1)`, all nonnegative, and on nonnegative `idx`
Python's `max(0, idx - 1)` coincides with truncated subtraction. -/
structure InputBox where
  content : String
  history : List String
  history_idx : Nat
  deriving DecidableEq, Repr

/-- `InputBox._submit`: read the current line, strip it, clear the
widget; when the stripped text is non-empty, append it to the history,
reset the cursor to `len(self.history)` and invoke `on_submit(text)`.
The second component is the argument passed to the callback (`none` when
the callback is not invoked). -/
def InputBox.submit (b : InputBox) : InputBox × Option String :=
  let text := pyStrip b.content
  let b1 := { b with content := "" }
  if text = "" then (b1, none)
  else
    let h := b1.history ++ [text]
    ({ b1 with history := h, history_idx := h.length }, some text)

/-- `InputBox._show_history`: clear the widget, then, when the cursor
addresses a valid entry, insert `self.history[self.history_idx]`. -/
def InputBox.show_history (b : InputBox) : InputBox :=
  let b1 := { b with content := "" }
  if b1.history_idx < b1.history.length then
    { b1 with content := b1.history.getD b1.history_idx "" }
  else b1

/-- `InputBox._hist_prev` (↑ binding): when the history is non-empty,
move the cursor to `max(0, self.history_idx - 1)` (truncated `Nat`
subtraction) and redisplay; otherwise do nothing. -/
def InputBox.hist_prev (b : InputBox) : InputBox :=
  if b.history = [] then b
  else InputBox.show_history { b with history_idx := b.history_idx - 1 }

/-- `InputBox._hist_next` (↓ binding): when the history is non-empty,
move the cursor to `min(len(self.history), self.history_idx + 1)` and
redisplay; otherwise do nothing. -/
def InputBox.hist_next (b : InputBox) : InputBox :=
  if b.history = [] then b
  else InputBox.show_history
    { b with history_idx := min b.history.length (b.history_idx + 1) }

/-! ## gui/engine_thread.py -/

/-- gui/engine_thread.py, class `EngineThread`: its two relays.
`stdin_pipe` carries commands to the engine, `stdout_pipe` carries the
engine's transcript output. -/
structure EngineThread where
  stdin_pipe : Pipe
  stdout_pipe : Pipe
  deriving DecidableEq, Repr

/-- Python `line.endswith("\n")`: the string is non-empty and its last
character is the line terminator. -/
def pyEndsWithNewline (s : String) : Bool :=
  match s.data.getLast? with
  | some c => c = '\n'
  | none => false

/-- The newline normalization inside `EngineThread.enqueue_line`:
`if not line.endswith("\n"): line += "\n"`. -/
def EngineThread.normalizeLine (line : String) : String :=
  if pyEndsWithNewline line then line else line ++ "\n"

/-- `EngineThread.enqueue_line(line)`: normalize, then
`self.stdin_pipe.write(line)`; `none` when the write would block on a
full relay. -/
def EngineThread.enqueue_line (e : EngineThread) (line : String) : Option EngineThread :=
  (e.stdin_pipe.write (EngineThread.normalizeLine line)).map
    fun p => { e with stdin_pipe := p }

/-- What a stream binding in the `sys` module can point at. -/
inductive Binding where
  | osStdin
  | osStdout
  | enginePipeIn
  | enginePipeOut
  deriving DecidableEq, Repr

/-- The `sys` module's mutable stream bindings and `argv`.  A Python
module object is a process-global singleton: there is exactly one
`SysModule` value per process state, shared by every thread — attribute
assignment on it is not thread-local. -/
structure SysModule where
  stdin : Binding
  stdout : Binding
  argv : List String
  deriving DecidableEq, Repr

/-- A thread's view of `sys.stdin`: Python resolves the attribute on the
one shared module object, whatever the reading thread is. -/
def threadViewStdin (_tid : Nat) (sys : SysModule) : Binding :=
  sys.stdin

/-- A thread's view of `sys.stdout`, likewise resolved on the shared
module object. -/
def threadViewStdout (_tid : Nat) (sys : SysModule) : Binding :=
  sys.stdout

/-- The effect of `EngineThread.run`'s prologue on the `sys` module,
executed on the worker thread before `xyppy_main.main()` is invoked:
`sys.stdin = self.stdin_pipe`, `sys.stdout = self.stdout_pipe`,
`sys.argv = ["xyppy"] + self.argv`.  Each assignment mutates the shared
module object. -/
def EngineThread.runSwap (sys : SysModule) (argv : List String) : SysModule :=
  { sys with
    stdin := .enginePipeIn
    stdout := .enginePipeOut
    argv := "xyppy" :: argv }

/-! ## gui/app.py — `main` -/

/-- The observable outcome of `main()` (gui/app.py): either the usage
message is printed and `sys.exit(code)` is called, or the application is
constructed on the given story path and enters `mainloop()`. -/
inductive MainResult where
  | usage (msg : String) (exitCode : Nat)
  | started (storyPath : String)
  deriving DecidableEq, Repr

/-- `main()` (gui/app.py): with fewer than two entries in `sys.argv`,
print the usage line and `sys.exit(1)`; otherwise build
`GameApp(Path(sys.argv[1]))` and run its main loop. -/
def main (argv : List String) : MainResult :=
  if argv.length < 2 then
    .usage "Usage: python -m gui.app STORY_FILE.z5" 1
  else
    .started (argv.getD 1 "")

/-! ## Claim theorems -/

/-- C1: fragments written in order f1, …, fn to a single relay are
yielded exactly in that order, both by the poll loop's non-blocking
drain and by repeated blocking `readline` calls — nothing lost,
duplicated, split, or merged. -/
theorem pipe_fifo_order (fs : List String) (p : Pipe) (tr : TkText)
    (h : Pipe.writeAll Pipe.mk0 fs = some p) :
    (GameApp.pollEngine p tr).chunks = fs
      ∧ Pipe.readlines p fs.length = some (fs, ⟨p.maxsize, []⟩) := by
  obtain ⟨h1, h2⟩ := Pipe.writeAll_eq fs Pipe.mk0 p h
  obtain ⟨m, items⟩ := p
  obtain rfl : m = 2048 := h1
  obtain rfl : items = fs := by simpa using h2
  constructor
  · simp [GameApp.pollEngine, GameApp.pollLoop_eq]
  · exact Pipe.readlines_all _ _

/-- Witness for C1 at the concrete fragment sequence
["Hello ", "world\n"]. -/
theorem pipe_fifo_order_witness :
    Pipe.writeAll Pipe.mk0 ["Hello ", "world\n"]
        = some ⟨2048, ["Hello ", "world\n"]⟩
      ∧ (GameApp.pollEngine ⟨2048, ["Hello ", "world\n"]⟩
          ⟨"", .disabled⟩).chunks = ["Hello ", "world\n"]
      ∧ Pipe.readlines ⟨2048, ["Hello ", "world\n"]⟩ 2
          = some (["Hello ", "world\n"], ⟨2048, []⟩) := by
  have h := pipe_fifo_order ["Hello ", "world\n"]
    ⟨2048, ["Hello ", "world\n"]⟩ ⟨"", .disabled⟩ (by decide)
  exact ⟨by decide, h.1, by simpa using h.2⟩

/-- C6: the poll loop's non-blocking drain of an empty relay returns no
chunks, leaves the relay and the transcript untouched, raises nothing
(the drain is a total function whose `queue.Empty` branch is the
swallowed exception), and reschedules the poll. -/
theorem poll_empty_relay (p : Pipe) (tr : TkText) (h : p.items = []) :
    GameApp.pollEngine p tr = ⟨[], p, tr, true⟩ := by
  obtain ⟨m, items⟩ := p
  obtain rfl : items = [] := h
  simp [GameApp.pollEngine, GameApp.pollLoop]

/-- Witness for C6 on a concrete empty relay and non-empty transcript. -/
theorem poll_empty_relay_witness :
    GameApp.pollEngine ⟨2048, []⟩ ⟨"West of House\n", .disabled⟩
      = ⟨[], ⟨2048, []⟩, ⟨"West of House\n", .disabled⟩, true⟩ :=
  poll_empty_relay ⟨2048, []⟩ ⟨"West of House\n", .disabled⟩ rfl

/-- C7: `Transcript.append(text)` strictly appends: the resulting buffer
is the previous buffer followed by `text` (so nothing already present is
altered, removed, or reordered), and the widget ends up read-only
again. -/
theorem transcript_append_monotonic (w : TkText) (text : String) :
    (Transcript.append w text).content = w.content ++ text
      ∧ (Transcript.append w text).state = TkState.disabled := by
  obtain ⟨c, st⟩ := w
  cases st <;>
    simp [Transcript.append, TkText.configureState, TkText.insertEnd]

/-- C8: `main` with fewer than two argv entries (no positional story
file) prints the usage message and exits with status 1 (non-zero); with
the argument present it starts the application on that path instead of
printing usage. -/
theorem main_usage_spec (argv : List String) :
    (argv.length < 2 →
        main argv = .usage "Usage: python -m gui.app STORY_FILE.z5" 1
          ∧ (1 : Nat) ≠ 0)
  ∧ (2 ≤ argv.length → main argv = .started (argv.getD 1 "")) := by
  constructor
  · intro h
    simp [main, h]
  · intro h
    simp [main, Nat.not_lt.mpr h]

/-- Witness for C8: no argument vs. a concrete story path. -/
theorem main_usage_spec_witness :
    main ["gui.app"] = .usage "Usage: python -m gui.app STORY_FILE.z5" 1
      ∧ main ["gui.app", "zork1.z5"] = .started "zork1.z5" := by
  refine ⟨((main_usage_spec ["gui.app"]).1 (by decide)).1, ?_⟩
  have h := (main_usage_spec ["gui.app", "zork1.z5"]).2 (by decide)
  simpa using h

/-! ### Helper lemmas shared by the input-box claims -/

theorem InputBox.show_history_history (b : InputBox) :
    (InputBox.show_history b).history = b.history := by
  by_cases hc : b.history_idx < b.history.length <;>
    simp [InputBox.show_history, hc]

theorem InputBox.show_history_idx (b : InputBox) :
    (InputBox.show_history b).history_idx = b.history_idx := by
  by_cases hc : b.history_idx < b.history.length <;>
    simp [InputBox.show_history, hc]

theorem InputBox.show_history_content (b : InputBox) :
    (InputBox.show_history b).content
      = (if b.history_idx < b.history.length
          then b.history.getD b.history_idx "" else "") := by
  by_cases hc : b.history_idx < b.history.length <;>
    simp [InputBox.show_history, hc]

theorem InputBox.hist_prev_eq (b : InputBox) (hne : b.history ≠ []) :
    InputBox.hist_prev b
      = InputBox.show_history { b with history_idx := b.history_idx - 1 } := by
  unfold InputBox.hist_prev
  rw [if_neg hne]

theorem InputBox.hist_next_eq (b : InputBox) (hne : b.history ≠ []) :
    InputBox.hist_next b
      = InputBox.show_history
          { b with history_idx := min b.history.length (b.history_idx + 1) } := by
  unfold InputBox.hist_next
  rw [if_neg hne]

/-- C2 (code evaluated at the failing scenario): `EngineThread.run`
assigns the relays to the process-global `sys` module, so another
thread — tid 0 here, the Tk interface thread, while the worker runs as
tid 1 — reading `sys.stdin` / `sys.stdout` after the swap no longer
sees the original bindings: the substitution is not scoped to the
worker thread. -/
theorem run_swap_affects_other_threads :
    threadViewStdout 0
        (EngineThread.runSwap ⟨.osStdin, .osStdout, ["gui.app", "story.z5"]⟩
          ["story.z5"])
        ≠ threadViewStdout 0 ⟨.osStdin, .osStdout, ["gui.app", "story.z5"]⟩
      ∧ threadViewStdin 0
          (EngineThread.runSwap ⟨.osStdin, .osStdout, ["gui.app", "story.z5"]⟩
            ["story.z5"])
          ≠ threadViewStdin 0 ⟨.osStdin, .osStdout, ["gui.app", "story.z5"]⟩ := by
  decide

/-- The normalization asserted by C3, read off the claim's words (for
comparison with the code): strip every trailing line terminator, then
append exactly one, so the result always ends with exactly one
terminator. -/
def specNormalizeExactlyOne (s : String) : String :=
  String.mk ((s.data.reverse.dropWhile (fun c => c = '\n')).reverse) ++ "\n"

/-- C3 counterexample: `enqueue_line("look\n\n")` writes the fragment
`"look\n\n"` unchanged, which is not the text normalized to end with
exactly one line terminator. -/
theorem enqueue_line_exactly_one_ctrex :
    EngineThread.enqueue_line ⟨Pipe.mk0, Pipe.mk0⟩ "look\n\n"
        = some ⟨⟨2048, ["look\n\n"]⟩, Pipe.mk0⟩
      ∧ "look\n\n" ≠ specNormalizeExactlyOne "look\n\n" := by
  decide

theorem pyEndsWithNewline_append_newline (line : String) :
    pyEndsWithNewline (line ++ "\n") = true := by
  unfold pyEndsWithNewline
  have h : (line ++ "\n").data = line.data ++ ['\n'] := by
    simp [String.data_append]
  rw [h, List.getLast?_concat]
  simp

/-- C3 (amended): `enqueue_line(text)` writes `text` unchanged when it
already ends with a line terminator and `text` with one terminator
appended otherwise; the written fragment always ends with a line
terminator, and a subsequent blocking read from the inbound relay
yields exactly that fragment. -/
theorem enqueue_line_normalized (e e' : EngineThread) (line : String)
    (h : EngineThread.enqueue_line e line = some e')
    (hq : e.stdin_pipe.items = []) :
    ∃ frag,
      Pipe.readline e'.stdin_pipe = some (frag, ⟨e'.stdin_pipe.maxsize, []⟩)
        ∧ pyEndsWithNewline frag = true
        ∧ (pyEndsWithNewline line = true → frag = line)
        ∧ (pyEndsWithNewline line = false → frag = line ++ "\n") := by
  refine ⟨EngineThread.normalizeLine line, ?_, ?_, ?_, ?_⟩
  · rw [EngineThread.enqueue_line] at h
    cases hw : Pipe.write e.stdin_pipe (EngineThread.normalizeLine line) with
    | none => rw [hw] at h; cases h
    | some p =>
      rw [hw] at h
      simp only [Option.map_some', Option.some.injEq] at h
      subst h
      unfold Pipe.write at hw
      rw [hq] at hw
      split at hw
      · cases hw
        simp [Pipe.readline]
      · cases hw
  · unfold EngineThread.normalizeLine
    cases hb : pyEndsWithNewline line with
    | true => simpa using hb
    | false => simp [hb, pyEndsWithNewline_append_newline]
  · intro hb
    simp [EngineThread.normalizeLine, hb]
  · intro hb
    simp [EngineThread.normalizeLine, hb]

/-- Witness for C3's amended theorem: `enqueue_line("look")` on an empty
inbound relay, read back as `"look\n"`. -/
theorem enqueue_line_normalized_witness :
    EngineThread.enqueue_line ⟨Pipe.mk0, Pipe.mk0⟩ "look"
        = some ⟨⟨2048, ["look\n"]⟩, Pipe.mk0⟩
      ∧ ∃ frag,
          Pipe.readline (⟨2048, ["look\n"]⟩ : Pipe) = some (frag, ⟨2048, []⟩)
            ∧ pyEndsWithNewline frag = true
            ∧ (pyEndsWithNewline "look" = true → frag = "look")
            ∧ (pyEndsWithNewline "look" = false → frag = "look" ++ "\n") := by
  refine ⟨by decide, ?_⟩
  have h := enqueue_line_normalized ⟨Pipe.mk0, Pipe.mk0⟩
    ⟨⟨2048, ["look\n"]⟩, Pipe.mk0⟩ "look" (by decide) rfl
  simpa using h

/-- C4: `_submit` strips the current contents and always clears the
widget; a non-empty stripped result is appended to the history with the
cursor reset to the new history length and is passed to the callback; a
whitespace-only input leaves history and cursor untouched and invokes
no callback. -/
theorem submit_spec (b : InputBox) :
    (pyStrip b.content = "" →
        InputBox.submit b = ({ b with content := "" }, none))
  ∧ (pyStrip b.content ≠ "" →
        InputBox.submit b
          = (⟨"", b.history ++ [pyStrip b.content], b.history.length + 1⟩,
              some (pyStrip b.content))) := by
  constructor
  · intro h
    simp [InputBox.submit, h]
  · intro h
    simp [InputBox.submit, h]

/-- Witness for C4: a padded command is trimmed, recorded and forwarded;
a whitespace-only input is merely cleared. -/
theorem submit_spec_witness :
    InputBox.submit ⟨"  go north  ", ["x"], 1⟩
        = (⟨"", ["x", "go north"], 2⟩, some "go north")
      ∧ InputBox.submit ⟨" \t ", ["x"], 1⟩ = (⟨"", ["x"], 1⟩, none) := by
  constructor
  · have h := (submit_spec ⟨"  go north  ", ["x"], 1⟩).2 (by decide)
    have e : pyStrip "  go north  " = "go north" := by decide
    rw [e] at h
    simpa using h
  · have h := (submit_spec ⟨" \t ", ["x"], 1⟩).1 (by decide)
    simpa using h

/-- C5: with a non-empty history and the cursor in `[0, length]`, ↑
moves the cursor one step toward the start (clamped at 0) and shows the
entry there, ↓ moves one step toward the end (clamped at the length)
and shows the entry at the new cursor or empty at past-end, and both
keep the cursor inside `[0, length]`. -/
theorem hist_nav_spec (b : InputBox) (hne : b.history ≠ [])
    (hle : b.history_idx ≤ b.history.length) :
    ((InputBox.hist_prev b).history = b.history
      ∧ (InputBox.hist_prev b).history_idx = b.history_idx - 1
      ∧ (InputBox.hist_prev b).content = b.history.getD (b.history_idx - 1) ""
      ∧ (InputBox.hist_prev b).history_idx ≤ b.history.length)
  ∧ ((InputBox.hist_next b).history = b.history
      ∧ (InputBox.hist_next b).history_idx
          = min b.history.length (b.history_idx + 1)
      ∧ (InputBox.hist_next b).content
          = (if b.history_idx + 1 < b.history.length
              then b.history.getD (b.history_idx + 1) "" else "")
      ∧ (InputBox.hist_next b).history_idx ≤ b.history.length) := by
  have hlen : 0 < b.history.length := List.length_pos.mpr hne
  rw [InputBox.hist_prev_eq b hne, InputBox.hist_next_eq b hne]
  refine ⟨⟨?_, ?_, ?_, ?_⟩, ⟨?_, ?_, ?_, ?_⟩⟩
  · rw [InputBox.show_history_history]
  · rw [InputBox.show_history_idx]
  · rw [InputBox.show_history_content]
    simp only
    rw [if_pos (by omega : b.history_idx - 1 < b.history.length)]
  · rw [InputBox.show_history_idx]
    simp only
    omega
  · rw [InputBox.show_history_history]
  · rw [InputBox.show_history_idx]
  · rw [InputBox.show_history_content]
    simp only
    by_cases hlt : b.history_idx + 1 < b.history.length
    · rw [Nat.min_eq_right (Nat.le_of_lt hlt)]
    · rw [Nat.min_eq_left (by omega)]
      simp [hlt, Nat.lt_irrefl]
  · rw [InputBox.show_history_idx]
    simp only
    omega

/-- Witness for C5: the concrete ["north", "take lamp"] navigation
scenario, starting from the past-end cursor. -/
theorem hist_nav_spec_witness :
    (InputBox.hist_prev ⟨"", ["north", "take lamp"], 2⟩).content = "take lamp"
      ∧ InputBox.hist_prev ⟨"", ["north", "take lamp"], 2⟩
          = ⟨"take lamp", ["north", "take lamp"], 1⟩
      ∧ InputBox.hist_prev ⟨"take lamp", ["north", "take lamp"], 1⟩
          = ⟨"north", ["north", "take lamp"], 0⟩
      ∧ InputBox.hist_prev ⟨"north", ["north", "take lamp"], 0⟩
          = ⟨"north", ["north", "take lamp"], 0⟩
      ∧ InputBox.hist_next ⟨"north", ["north", "take lamp"], 0⟩
          = ⟨"take lamp", ["north", "take lamp"], 1⟩
      ∧ InputBox.hist_next ⟨"take lamp", ["north", "take lamp"], 1⟩
          = ⟨"", ["north", "take lamp"], 2⟩ := by
  have h := (hist_nav_spec ⟨"", ["north", "take lamp"], 2⟩
    (by decide) (by decide)).1.2.2.1
  exact ⟨h.trans (by decide), by decide, by decide, by decide, by decide,
    by decide⟩

/-- C9: with an empty history, ↑ and ↓ change nothing at all: cursor
and contents, including text typed but not yet submitted, stay exactly
as they were. -/
theorem hist_nav_empty_noop (b : InputBox) (h : b.history = []) :
    InputBox.hist_prev b = b ∧ InputBox.hist_next b = b := by
  constructor <;> simp [InputBox.hist_prev, InputBox.hist_next, h]

/-- Witness for C9 on a box holding unsubmitted typed text. -/
theorem hist_nav_empty_noop_witness :
    InputBox.hist_prev ⟨"half-typed text", [], 0⟩ = ⟨"half-typed text", [], 0⟩
      ∧ InputBox.hist_next ⟨"half-typed text", [], 0⟩
          = ⟨"half-typed text", [], 0⟩ :=
  hist_nav_empty_noop ⟨"half-typed text", [], 0⟩ rfl

/-- C10: with a non-empty history every navigation press overwrites the
contents — typed-but-unsubmitted text has no effect on the outcome —
and the displayed text is the entry at the resulting cursor, or empty
at the past-end position, even when the cursor was already clamped. -/
theorem hist_nav_discards_typed (b : InputBox) (typed : String)
    (hne : b.history ≠ []) :
    InputBox.hist_prev { b with content := typed } = InputBox.hist_prev b
  ∧ InputBox.hist_next { b with content := typed } = InputBox.hist_next b
  ∧ (InputBox.hist_prev b).content
      = (if b.history_idx - 1 < b.history.length
          then b.history.getD (b.history_idx - 1) "" else "")
  ∧ (InputBox.hist_next b).content
      = (if min b.history.length (b.history_idx + 1) < b.history.length
          then b.history.getD (min b.history.length (b.history_idx + 1)) ""
          else "") := by
  have hne' : ({ b with content := typed } : InputBox).history ≠ [] := hne
  refine ⟨?_, ?_, ?_, ?_⟩
  · rw [InputBox.hist_prev_eq _ hne', InputBox.hist_prev_eq b hne]
    unfold InputBox.show_history
    rfl
  · rw [InputBox.hist_next_eq _ hne', InputBox.hist_next_eq b hne]
    unfold InputBox.show_history
    rfl
  · rw [InputBox.hist_prev_eq b hne, InputBox.show_history_content]
  · rw [InputBox.hist_next_eq b hne, InputBox.show_history_content]

/-- Witness for C10: the cursor is already clamped at 0, does not move,
and the half-typed text is still discarded in favour of the entry. -/
theorem hist_nav_discards_typed_witness :
    InputBox.hist_prev ⟨"half typed", ["take lamp"], 0⟩
        = InputBox.hist_prev ⟨"", ["take lamp"], 0⟩
      ∧ (InputBox.hist_prev ⟨"", ["take lamp"], 0⟩).content = "take lamp" := by
  have h := hist_nav_discards_typed ⟨"", ["take lamp"], 0⟩ "half typed"
    (by decide)
  exact ⟨h.1, h.2.2.1.trans (by decide)⟩

end XyppySpeech
